import Mathlib

/-!
Shallow embedding of the OCR line-classification and aggregation core of the
MSA repository (src/cleantext.py, merged-output logic of src/cleantext.py
`__main__` and src/app.py `process_images_with_ocr`).

Conventions of the embedding:
* Python strings are Lean `String`s; `None` entries in the input line list are
  `Option.none`.
* Python `str.strip()` is `pyStrip`, built on `pyIsSpace`, which models
  Python's default whitespace set (ASCII whitespace plus the common Unicode
  space characters).
* `str.lower()` / `Char.isalpha` are modelled with Lean's ASCII
  `String.toLower` / `Char.isAlpha`; every token the program compares against
  (DROP_TOKENS, role substrings) is ASCII, so this is faithful on the
  program's own alphabet.
* The float comparison `letters/len(t) < 0.35` is modelled by the exact
  rational comparison `100 * letters < 35 * t.length`; for token lengths far
  below 2^50 the two comparisons agree.
* Machine integers do not occur: Python ints are unbounded, modelled as `Nat`
  (all values involved are non-negative digit strings).
* `pandas` effects are modelled where the core logic depends on them:
  `pd.DataFrame(data).sort_values("Power", ...)` raises `KeyError` when
  `data` is empty (the frame then has no "Power" column), so
  `parse_ocr_lines` returns `Except String _`, with `Except.error` modelling
  the raised exception.
-/

/-- Python's default whitespace set for `str.strip()` / `\s`:
ASCII whitespace, the C1 controls `\x1c`-`\x1f`, `\x85`, NBSP and the
common Unicode space code points. -/
def pyIsSpace (c : Char) : Bool :=
  c = ' ' || c = '\t' || c = '\n' || c = '\x0b' || c = '\x0c' || c = '\r' ||
  c = '\x1c' || c = '\x1d' || c = '\x1e' || c = '\x1f' || c = '\x85' ||
  c = '\xa0' || c = ' ' || (0x2000 ≤ c.toNat && c.toNat ≤ 0x200a) ||
  c = ' ' || c = ' ' || c = ' ' || c = ' ' || c = '　'

/-- Strip characters satisfying `p` from both ends of a character list. -/
def stripEnds (p : Char → Bool) (l : List Char) : List Char :=
  ((l.dropWhile p).reverse.dropWhile p).reverse

/-- Python `str.strip()`. -/
def pyStrip (s : String) : String :=
  String.mk (stripEnds pyIsSpace s.data)

/-- Strip a trailing run of characters satisfying `p` (the `re.sub`
patterns anchored with `+$` used throughout cleantext.py). -/
def stripTrailing (p : Char → Bool) (s : String) : String :=
  String.mk ((s.data.reverse.dropWhile p).reverse)

/-- Python `str.lower()`. Kernel-reducible ASCII lowering (every string the
program compares against after lowering is ASCII). -/
def strLower (s : String) : String :=
  String.mk (s.data.map Char.toLower)

/-- Does `pre` occur as a prefix of `l`? -/
def listPrefixEq : List Char → List Char → Bool
  | [], _ => true
  | _ :: _, [] => false
  | a :: as, b :: bs => a = b && listPrefixEq as bs

/-- Does `needle` occur as a contiguous substring of the list?
Models Python's `w in s0`. -/
def listContainsSub (needle : List Char) : List Char → Bool
  | [] => needle.isEmpty
  | c :: cs => listPrefixEq needle (c :: cs) || listContainsSub needle cs

/-- Python `w in s0` on strings. -/
def strContainsSub (hay needle : String) : Bool :=
  listContainsSub needle.data hay.data

/-- The set `DROP_TOKENS` from cleantext.py. -/
def DROP_TOKENS : List String :=
  ["nm", "nm-", "members", "member", "elite", "officer", "president", "vice",
   "vice president", "hardcore", "casual", "active", "daily", "active daily",
   "active at night", "online", "ranking", "notice", "enter", "club", "tag",
   "state"]

/-- The constant `MIN_DIGITS` from cleantext.py. -/
def MIN_DIGITS : Nat := 6

/-- The constant `STRICT_MIN_POWER` from cleantext.py (`None` disables the floor). -/
def STRICT_MIN_POWER : Option Nat := some 3000000

/-- The role substrings scanned for anywhere in the line by
`is_drop_line`. -/
def ROLE_SUBSTRINGS : List String :=
  ["member", "elite", "officer", "president", "hardcore", "casual", "active",
   "online", "vice"]

/-- The trailing-punctuation class `[:;,\-–—]` of `is_drop_line`. -/
def dropPunct (c : Char) : Bool :=
  c = ':' || c = ';' || c = ',' || c = '-' || c = '–' || c = '—'

/-- The function `is_drop_line` from cleantext.py. -/
def is_drop_line (s : String) : Bool :=
  let s0 := strLower (stripTrailing dropPunct (pyStrip s))
  if s0 = "" then true
  else if DROP_TOKENS.contains s0 then true
  else ROLE_SUBSTRINGS.any (fun w => strContainsSub s0 w)

/-- The character-level normalisation of `parse_power`: remove the thin
space ` ` and narrow no-break space ` `, replace NBSP `\xa0`
with an ordinary space and the pipe with the digit 1. -/
def pNormalize (s : String) : String :=
  String.mk (s.data.filterMap (fun c =>
    if c = ' ' || c = ' ' then none
    else if c = '\xa0' then some ' '
    else if c = '|' then some '1'
    else some c))

/-- The regex `[0-9][0-9,.\s]*` fullmatch of `parse_power`. -/
def powerFullmatch (s : String) : Bool :=
  match s.data with
  | [] => false
  | c :: cs =>
      c.isDigit && cs.all (fun d => d.isDigit || d = ',' || d = '.' || pyIsSpace d)

/-- The digit-only residue `re.sub(r"[^\d]", "", s)`. -/
def digitsOf (s : String) : List Char :=
  s.data.filter Char.isDigit

/-- Python `int(digits)` for a digit-only character list. -/
def digitsToNat (l : List Char) : Nat :=
  l.foldl (fun acc c => 10 * acc + (c.toNat - 48)) 0

/-- The function `parse_power` from cleantext.py: `(int_value?, ok)`. -/
def parse_power (s : String) : Option Nat × Bool :=
  let s := pyStrip s
  if s = "" then (none, false)
  else
    let s := pNormalize s
    if powerFullmatch s then
      let digits := digitsOf s
      -- `digits.isdigit()` holds exactly when the residue is non-empty
      -- (it is all digits by construction); with `MIN_DIGITS = 6` the
      -- length test subsumes non-emptiness.
      if decide (¬ digits.isEmpty) && decide (MIN_DIGITS ≤ digits.length) then
        (some (digitsToNat digits), true)
      else (none, false)
    else (none, false)

/-- Split a string on runs of characters satisfying `p`, producing the
non-empty chunks (`re.split(r"\s+", _)` on a stripped string). -/
def wordsByAux (p : Char → Bool) : List Char → List Char → List String
  | [], acc => if acc.isEmpty then [] else [String.mk acc.reverse]
  | c :: cs, acc =>
      if p c then
        if acc.isEmpty then wordsByAux p cs []
        else String.mk acc.reverse :: wordsByAux p cs []
      else wordsByAux p cs (c :: acc)

/-- Whitespace-split into tokens. -/
def wordsBy (p : Char → Bool) (s : String) : List String :=
  wordsByAux p s.data []

/-- The per-token filter of `clean_name`: drop empty tokens, tokens in
`DROP_TOKENS` (lower-cased comparison), bare 2-4 digit numbers, and tokens
whose alphabetic character share is zero or below 0.35. -/
def keepToken (t : String) : Bool :=
  if t = "" then false
  else if DROP_TOKENS.contains (strLower t) then false
  else if decide (2 ≤ t.length) && decide (t.length ≤ 4) && t.data.all Char.isDigit then false
  else
    let letters := (t.data.filter Char.isAlpha).length
    if letters = 0 then false
    else decide (35 * t.length ≤ 100 * letters)

/-- Worker for `collapseWS`; the flag records that we are inside a
whitespace run that has already been replaced by a single space, so its
remaining characters are dropped. -/
def collapseWSAux : List Char → Bool → List Char
  | [], _ => []
  | c :: cs, skipping =>
      if pyIsSpace c then
        if skipping then collapseWSAux cs true
        else
          match cs with
          | [] => [c]
          | c2 :: _ =>
            if pyIsSpace c2 then ' ' :: collapseWSAux cs true
            else c :: collapseWSAux cs false
      else c :: collapseWSAux cs false

/-- Python `re.sub(r"\s{2,}", " ", _)`: collapse every run of two or more
whitespace characters to a single ordinary space (a lone whitespace
character is left as it is). -/
def collapseWS (l : List Char) : List Char :=
  collapseWSAux l false

/-- The trailing-punctuation class `[-_.;:]` of `clean_name`. -/
def namePunct (c : Char) : Bool :=
  c = '-' || c = '_' || c = '.' || c = ';' || c = ':'

/-- Python `" ".join(_)` at the character level (kernel-reducible). -/
def joinSpaceAux : List String → List Char
  | [] => []
  | [t] => t.data
  | t :: t2 :: ts => t.data ++ (' ' :: joinSpaceAux (t2 :: ts))

/-- Python `" ".join(_)`. -/
def joinSpace (l : List String) : String :=
  String.mk (joinSpaceAux l)

/-- The function `clean_name` from cleantext.py. -/
def clean_name (raw : String) : String :=
  let toks := wordsBy pyIsSpace (pyStrip raw)
  let out := toks.filter keepToken
  let name := joinSpace out
  let name := stripTrailing namePunct name
  pyStrip (String.mk (collapseWS name.data))

/-- The trailing class `[-_.\s:;]` of `normalize_name_key`. -/
def keyPunct (c : Char) : Bool :=
  c = '-' || c = '_' || c = '.' || pyIsSpace c || c = ':' || c = ';'

/-- The function `normalize_name_key` from cleantext.py. -/
def normalize_name_key (name : String) : String :=
  stripTrailing keyPunct (strLower (pyStrip name))

/-- A suspect record `(name, raw_power_text, reason)`. -/
abbrev Suspect := String × String × String

/-- The reason string `f"power<{STRICT_MIN_POWER} ({pval})"`. -/
def floorReason (floor pval : Nat) : String :=
  "power<" ++ Nat.repr floor ++ " (" ++ Nat.repr pval ++ ")"

/-- The reason string `f"malformed_digits({pval})"`. -/
def malformedReason (pval : Nat) : String :=
  "malformed_digits(" ++ Nat.repr pval ++ ")"

/-- The suspect/record policy applied at a power boundary with a non-empty
cleaned name (cleantext.py lines 91-96): the `STRICT_MIN_POWER` floor is
checked first, then the parser's `ok` flag. -/
def stepPower (name line : String) (pval : Nat) (ok : Bool)
    (out : List (String × Nat) × List Suspect) :
    List (String × Nat) × List Suspect :=
  match STRICT_MIN_POWER with
  | some floor =>
      if pval < floor then (out.1, (name, line, floorReason floor pval) :: out.2)
      else if ok then ((name, pval) :: out.1, out.2)
      else (out.1, (name, line, malformedReason pval) :: out.2)
  | none =>
      if ok then ((name, pval) :: out.1, out.2)
      else (out.1, (name, line, malformedReason pval) :: out.2)

/-- The aggregation loop of `parse_ocr_lines` (cleantext.py lines 78-106),
as a fold over the line sequence threading the accumulated name-fragment
list `cur`. Returns the `(pairs, suspects)` grown by the loop, in emission
order. -/
def parseLoop : List (Option String) → List String →
    List (String × Nat) × List Suspect
  | [], _ => ([], [])
  | none :: rest, cur => parseLoop rest cur
  | some raw :: rest, cur =>
      let line := pyStrip raw
      if line = "" then parseLoop rest cur
      else
        match (parse_power line).1 with
        | some pval =>
            let name := clean_name (joinSpace cur)
            if name = "" then parseLoop rest []
            else stepPower name line pval (parse_power line).2 (parseLoop rest [])
        | none =>
            if is_drop_line line then parseLoop rest cur
            else parseLoop rest (cur ++ [line])

/-- The in-image dedup dictionary `best` (cleantext.py lines 109-113): an
insertion-ordered map from normalized key to the `(name, power)` pair with
the maximal power seen for that key; a strictly larger power replaces the
stored pair in place. -/
def bestStep (best : List (String × (String × Nat))) (np : String × Nat) :
    List (String × (String × Nat)) :=
  let k := normalize_name_key np.1
  if best.any (fun e => e.1 = k) then
    best.map (fun e => if e.1 = k then (if e.2.2 < np.2 then (k, np) else e) else e)
  else best ++ [(k, np)]

/-- The dictionary `best` after the whole dedup loop. -/
def bestFold (pairs : List (String × Nat)) : List (String × (String × Nat)) :=
  pairs.foldl bestStep []

/-- "Power descending" comparison used by `sort_values("Power",
ascending=False)`. -/
def powerDescRel (a b : String × Nat) : Prop := b.2 ≤ a.2

instance powerDescRel.dec : DecidableRel powerDescRel :=
  fun a b => Nat.decLe b.2 a.2

instance powerDescRel.total : IsTotal (String × Nat) powerDescRel :=
  ⟨fun a b => (Nat.le_total b.2 a.2).imp id id⟩

instance powerDescRel.trans : IsTrans (String × Nat) powerDescRel :=
  ⟨fun _ _ _ hab hbc => Nat.le_trans hbc hab⟩

/-- Sort records by power, descending. -/
def sortPowerDesc (l : List (String × Nat)) : List (String × Nat) :=
  List.insertionSort powerDescRel l

/-- The function `parse_ocr_lines` from cleantext.py. The loop and the dedup are total,
but the final `pd.DataFrame(data).sort_values("Power", ascending=False)`
raises `KeyError` when `data` is empty (an empty `DataFrame` has no
"Power" column); that raised exception is modelled by `Except.error`. -/
def parse_ocr_lines (lines : List (Option String)) :
    Except String (List (String × Nat) × List Suspect) :=
  let out := parseLoop lines []
  let data := (bestFold out.1).map (fun e => e.2)
  if data.isEmpty then Except.error ("KeyError: Power")
  else Except.ok (sortPowerDesc data, out.2)

/-- Code-point lexicographic `<` on character lists (Python string
comparison). -/
def listCharLt : List Char → List Char → Bool
  | [], [] => false
  | [], _ :: _ => true
  | _ :: _, [] => false
  | a :: as, b :: bs => a < b || (a = b && listCharLt as bs)

/-- Key-ascending comparison used by `groupby("Player Name")`, which sorts
the group keys. -/
def nameLeRel (a b : String × Nat) : Prop :=
  listCharLt b.1.data a.1.data = false

instance nameLeRel.dec : DecidableRel nameLeRel :=
  fun a b => instDecidableEqBool (listCharLt b.1.data a.1.data) false

/-- A line that never reaches the power branch: absent (`None`) or with no
parsed power value. -/
def noPowerB : Option String → Bool
  | none => true
  | some s => ((parse_power (pyStrip s)).1).isNone

/-- One row of the groupby-max: fold a row into the accumulated group
list, keyed by the exact name string, keeping the maximal power. -/
def groupStep (acc : List (String × Nat)) (r : String × Nat) :
    List (String × Nat) :=
  if acc.any (fun e => e.1 = r.1) then
    acc.map (fun e => if e.1 = r.1 then (e.1, max e.2 r.2) else e)
  else acc ++ [r]

/-- Pandas `df.groupby("Player Name", as_index=False)["Power"].max()` on the
concatenated rows, with the groups listed in key order. -/
def groupMaxByName (rows : List (String × Nat)) : List (String × Nat) :=
  List.insertionSort nameLeRel (rows.foldl groupStep [])

/-- The multi-image merge of cleantext.py `__main__` (lines 133-135) and
app.py `process_images_with_ocr` (lines 96-100): concatenate the per-image
record lists, group by the exact "Player Name" keeping the max "Power",
and sort by power descending. -/
def mergeGroupMax (dfs : List (List (String × Nat))) : List (String × Nat) :=
  sortPowerDesc (groupMaxByName dfs.flatten)

/-! ## Helper lemmas -/

theorem parse_power_cases (s : String) :
    (∃ p, parse_power s = (some p, true)) ∨ parse_power s = (none, false) := by
  simp only [parse_power]
  split
  · exact Or.inr rfl
  · split
    · split
      · exact Or.inl ⟨_, rfl⟩
      · exact Or.inr rfl
    · exact Or.inr rfl

/-- `parse_power` never pairs a value with `ok = false`. -/
theorem parse_power_not_some_false (s : String) (v : Nat) :
    parse_power s ≠ (some v, false) := by
  rcases parse_power_cases s with ⟨p, hp⟩ | hp <;> rw [hp] <;> simp

/-- If `parse_power` yields a value at all, the `ok` flag is true. -/
theorem parse_power_fst_some (s : String) (v : Nat)
    (h : (parse_power s).1 = some v) : parse_power s = (some v, true) := by
  rcases parse_power_cases s with ⟨p, hp⟩ | hp <;> rw [hp] at h ⊢ <;> simp_all

theorem parse_power_empty : parse_power ("") = (none, false) := rfl

/-- The numeric residue of a line with fewer than `MIN_DIGITS` digits is
rejected outright. -/
theorem parse_power_short (s : String)
    (h : (digitsOf (pNormalize (pyStrip s))).length < MIN_DIGITS) :
    parse_power s = (none, false) := by
  simp only [parse_power]
  split
  · rfl
  · split
    · have hd : decide (MIN_DIGITS ≤ (digitsOf (pNormalize (pyStrip s))).length) = false := by
        simpa using Nat.not_le.mpr h
      rw [hd, Bool.and_false, if_neg (by simp)]
    · rfl

theorem dropWhile_headFail {p : α → Bool} {l : List α} {a : α} {t : List α}
    (h : l.dropWhile p = a :: t) : p a = false := by
  have hne : l.dropWhile p ≠ [] := by simp [h]
  have := List.head_dropWhile_not p l hne
  rwa [show (l.dropWhile p).head hne = a by simp [h]] at this

theorem dropWhile_of_headFail {p : α → Bool} {l : List α}
    (h : ∀ a t, l = a :: t → p a = false) : l.dropWhile p = l := by
  cases l with
  | nil => rfl
  | cons a t => exact List.dropWhile_cons_of_neg (by simp [h a t rfl])

theorem dropWhile_dropWhile (p : α → Bool) (l : List α) :
    (l.dropWhile p).dropWhile p = l.dropWhile p := by
  apply dropWhile_of_headFail
  intro a t h
  exact dropWhile_headFail h

theorem stripEnds_idem (p : Char → Bool) (l : List Char) :
    stripEnds p (stripEnds p l) = stripEnds p l := by
  unfold stripEnds
  set m := l.dropWhile p with hm
  set r := m.reverse.dropWhile p with hr
  have hfail : ∀ a t, r.reverse = a :: t → p a = false := by
    intro a t h
    have hpre : r.reverse <+: m := by
      rw [show m = m.reverse.reverse by simp]
      exact List.reverse_prefix.mpr (hr ▸ List.dropWhile_suffix p)
    obtain ⟨s, hs⟩ := hpre
    rw [h] at hs
    exact dropWhile_headFail (l := l) (hm ▸ hs.symm)
  rw [dropWhile_of_headFail hfail]
  simp only [List.reverse_reverse]
  rw [hr, dropWhile_dropWhile]

theorem pyStrip_idem (s : String) : pyStrip (pyStrip s) = pyStrip s := by
  show String.mk (stripEnds pyIsSpace (stripEnds pyIsSpace s.data)) = _
  rw [stripEnds_idem]
  rfl

/-- A line that yields a power value is never the empty (post-strip) line. -/
theorem pyStrip_ne_empty_of_power {raw : String} {p : Nat}
    (hp : (parse_power (pyStrip raw)).1 = some p) : pyStrip raw ≠ "" := by
  intro h
  rw [h, parse_power_empty] at hp
  simp at hp

/-- Power boundary, non-empty name, value below the configured floor:
the loop emits exactly one suspect with the floor reason and no record,
and resets the accumulator. -/
theorem parseLoop_floor_step (raw : String) (rest : List (Option String))
    (cur : List String) (p : Nat)
    (hp : (parse_power (pyStrip raw)).1 = some p)
    (hname : clean_name (joinSpace cur) ≠ "")
    (hfloor : p < 3000000) :
    parseLoop (some raw :: rest) cur =
      ((parseLoop rest []).1,
       (clean_name (joinSpace cur), pyStrip raw, floorReason 3000000 p)
         :: (parseLoop rest []).2) := by
  have hne := pyStrip_ne_empty_of_power hp
  simp only [parseLoop, if_neg hne, hp]
  rw [if_neg hname]
  simp only [stepPower, STRICT_MIN_POWER]
  rw [if_pos hfloor]

/-- Power boundary with an empty cleaned name: the boundary is discarded
silently and the accumulator is reset. -/
theorem parseLoop_emptyname_step (raw : String) (rest : List (Option String))
    (cur : List String) (p : Nat)
    (hp : (parse_power (pyStrip raw)).1 = some p)
    (hname : clean_name (joinSpace cur) = "") :
    parseLoop (some raw :: rest) cur = parseLoop rest [] := by
  have hne := pyStrip_ne_empty_of_power hp
  simp only [parseLoop, if_neg hne, hp]
  rw [if_pos hname]

/-- A line that does not parse as a power value falls through to the
empty-line skip, the drop-line skip, or name-fragment accumulation. -/
theorem parseLoop_nopower_step (raw : String) (rest : List (Option String))
    (cur : List String)
    (hp : (parse_power (pyStrip raw)).1 = none) :
    parseLoop (some raw :: rest) cur =
      (if pyStrip raw = "" then parseLoop rest cur
       else if is_drop_line (pyStrip raw) then parseLoop rest cur
       else parseLoop rest (cur ++ [pyStrip raw])) := by
  by_cases hne : pyStrip raw = ""
  · simp only [parseLoop, if_pos hne]
  · simp only [parseLoop, if_neg hne, hp]

/-- An input consisting only of non-power lines produces no records and no
suspects, whatever is already accumulated. -/
theorem parseLoop_noPower (lines : List (Option String))
    (h : lines.all noPowerB = true) : ∀ cur, parseLoop lines cur = ([], []) := by
  induction lines with
  | nil => intro cur; rfl
  | cons x rest ih =>
    rw [List.all_cons, Bool.and_eq_true] at h
    intro cur
    cases x with
    | none => exact ih h.2 cur
    | some raw =>
      have h1 : (parse_power (pyStrip raw)).1 = none := by
        simpa [noPowerB, Option.isNone_iff_eq_none] using h.1
      rw [parseLoop_nopower_step raw rest cur h1]
      split
      · exact ih h.2 cur
      · split
        · exact ih h.2 cur
        · exact ih h.2 _

/-- Trailing non-power lines contribute nothing to the output. -/
theorem parseLoop_append_noPower (suffix : List (Option String))
    (h : suffix.all noPowerB = true) :
    ∀ (lines : List (Option String)) (cur : List String),
      parseLoop (lines ++ suffix) cur = parseLoop lines cur := by
  intro lines
  induction lines with
  | nil =>
    intro cur
    rw [List.nil_append, parseLoop_noPower suffix h cur]
    rfl
  | cons x rest ih =>
    intro cur
    cases x with
    | none =>
      show parseLoop (none :: (rest ++ suffix)) cur = _
      simp only [parseLoop]
      exact ih cur
    | some raw =>
      show parseLoop (some raw :: (rest ++ suffix)) cur = _
      simp only [parseLoop]
      by_cases he : pyStrip raw = ""
      · rw [if_pos he, if_pos he]; exact ih cur
      · rw [if_neg he, if_neg he]
        cases hp : (parse_power (pyStrip raw)).1 with
        | some pval =>
          simp only
          by_cases hn : clean_name (joinSpace cur) = ""
          · rw [if_pos hn, if_pos hn]; exact ih []
          · rw [if_neg hn, if_neg hn, ih []]
        | none =>
          simp only
          by_cases hd : is_drop_line (pyStrip raw)
          · rw [if_pos hd, if_pos hd]; exact ih cur
          · rw [if_neg hd, if_neg hd]; exact ih _

/-- Power boundary with a non-empty cleaned name: the loop defers to the
`stepPower` policy and resets the accumulator. -/
theorem parseLoop_power_step (raw : String) (rest : List (Option String))
    (cur : List String) (p : Nat)
    (hp : (parse_power (pyStrip raw)).1 = some p)
    (hname : clean_name (joinSpace cur) ≠ "") :
    parseLoop (some raw :: rest) cur =
      stepPower (clean_name (joinSpace cur)) (pyStrip raw) p
        ((parse_power (pyStrip raw)).2) (parseLoop rest []) := by
  have hne := pyStrip_ne_empty_of_power hp
  simp only [parseLoop, if_neg hne, hp]
  rw [if_neg hname]

/-- Every record the loop emits has a non-empty name that is the output of
`clean_name`. -/
theorem parseLoop_records (lines : List (Option String)) :
    ∀ (cur : List String) (np : String × Nat), np ∈ (parseLoop lines cur).1 →
      np.1 ≠ "" ∧ ∃ raw, np.1 = clean_name raw := by
  induction lines with
  | nil => intro cur np h; simp [parseLoop] at h
  | cons x rest ih =>
    intro cur np h
    cases x with
    | none => exact ih cur np h
    | some raw =>
      cases hp : (parse_power (pyStrip raw)).1 with
      | none =>
        rw [parseLoop_nopower_step raw rest cur hp] at h
        split at h
        · exact ih cur np h
        · split at h
          · exact ih cur np h
          · exact ih _ np h
      | some pval =>
        by_cases hn : clean_name (joinSpace cur) = ""
        · rw [parseLoop_emptyname_step raw rest cur pval hp hn] at h
          exact ih [] np h
        · rw [parseLoop_power_step raw rest cur pval hp hn] at h
          have hok : (parse_power (pyStrip raw)).2 = true := by
            rw [parse_power_fst_some _ _ hp]
          rw [hok] at h
          simp only [stepPower, STRICT_MIN_POWER] at h
          split at h
          · exact ih [] np h
          · rw [if_pos trivial] at h
            rcases List.mem_cons.mp h with h | h
            · subst h
              exact ⟨hn, joinSpace cur, rfl⟩
            · exact ih [] np h

/-- Every suspect the loop emits carries a floor reason: with
`STRICT_MIN_POWER` set and the parser never pairing a value with
`ok = false`, the `malformed_digits` branch is unreachable. -/
theorem parseLoop_suspects (lines : List (Option String)) :
    ∀ (cur : List String) (s : Suspect), s ∈ (parseLoop lines cur).2 →
      ∃ p, p < 3000000 ∧ s.2.2 = floorReason 3000000 p := by
  induction lines with
  | nil => intro cur s h; simp [parseLoop] at h
  | cons x rest ih =>
    intro cur s h
    cases x with
    | none => exact ih cur s h
    | some raw =>
      cases hp : (parse_power (pyStrip raw)).1 with
      | none =>
        rw [parseLoop_nopower_step raw rest cur hp] at h
        split at h
        · exact ih cur s h
        · split at h
          · exact ih cur s h
          · exact ih _ s h
      | some pval =>
        by_cases hn : clean_name (joinSpace cur) = ""
        · rw [parseLoop_emptyname_step raw rest cur pval hp hn] at h
          exact ih [] s h
        · rw [parseLoop_power_step raw rest cur pval hp hn] at h
          have hok : (parse_power (pyStrip raw)).2 = true := by
            rw [parse_power_fst_some _ _ hp]
          rw [hok] at h
          simp only [stepPower, STRICT_MIN_POWER] at h
          split at h
          · rename_i hfloor
            rcases List.mem_cons.mp h with h | h
            · subst h
              exact ⟨pval, hfloor, rfl⟩
            · exact ih [] s h
          · rw [if_pos trivial] at h
            exact ih [] s h

/-- A property holding of every stored entry and of the candidate entry is
preserved by one dedup step. -/
theorem bestStep_prop (P : String × (String × Nat) → Prop)
    (best : List (String × (String × Nat))) (np : String × Nat)
    (hbest : ∀ e ∈ best, P e) (hnp : P (normalize_name_key np.1, np)) :
    ∀ e ∈ bestStep best np, P e := by
  intro e he
  simp only [bestStep] at he
  split at he
  · rcases List.mem_map.mp he with ⟨x, hx, hfx⟩
    by_cases hk : x.1 = normalize_name_key np.1
    · rw [if_pos hk] at hfx
      split at hfx
      · subst hfx; exact hnp
      · subst hfx; exact hbest x hx
    · rw [if_neg hk] at hfx; subst hfx; exact hbest x hx
  · rcases List.mem_append.mp he with h | h
    · exact hbest e h
    · rw [List.mem_singleton] at h; subst h; exact hnp

theorem foldl_bestStep_prop (P : String × (String × Nat) → Prop)
    (l : List (String × Nat)) :
    ∀ init, (∀ e ∈ init, P e) →
      (∀ np ∈ l, P (normalize_name_key np.1, np)) →
      ∀ e ∈ l.foldl bestStep init, P e := by
  induction l with
  | nil => intro init h _ e he; exact h e he
  | cons np l ih =>
    intro init hinit hl e he
    exact ih (bestStep init np)
      (bestStep_prop P init np hinit (hl np (List.mem_cons_self np l)))
      (fun x hx => hl x (List.mem_cons_of_mem np hx)) e he

/-- Every entry of the dedup dictionary stores one of the loop's pairs,
under that pair's normalized-name key. -/
theorem bestFold_entries (pairs : List (String × Nat)) :
    ∀ e ∈ bestFold pairs, e.2 ∈ pairs ∧ e.1 = normalize_name_key e.2.1 := by
  apply foldl_bestStep_prop
    (fun e => e.2 ∈ pairs ∧ e.1 = normalize_name_key e.2.1) pairs []
  · intro e he; simp at he
  · intro np hnp; exact ⟨hnp, rfl⟩

/-- One dedup step never duplicates a key. -/
theorem bestStep_keys (best : List (String × (String × Nat)))
    (np : String × Nat) (h : (best.map (fun e => e.1)).Nodup) :
    ((bestStep best np).map (fun e => e.1)).Nodup := by
  simp only [bestStep]
  split
  · rw [List.map_map]
    have heq : best.map ((fun e => e.1) ∘ (fun e =>
        if e.1 = normalize_name_key np.1 then
          (if e.2.2 < np.2 then (normalize_name_key np.1, np) else e)
        else e)) = best.map (fun e => e.1) := by
      apply List.map_congr_left
      intro a _
      simp only [Function.comp]
      by_cases hk : a.1 = normalize_name_key np.1
      · rw [if_pos hk]; split <;> simp [hk]
      · rw [if_neg hk]
    rw [heq]; exact h
  · rename_i hany
    rw [List.map_append]
    rw [List.nodup_append]
    refine ⟨h, List.nodup_singleton _, ?_⟩
    intro a ha hb
    simp only [List.map_cons, List.map_nil, List.mem_singleton] at hb
    subst hb
    rcases List.mem_map.mp ha with ⟨e, he, hek⟩
    exact absurd (List.any_eq_true.mpr ⟨e, he, by simp [hek]⟩) hany

theorem foldl_bestStep_keys (l : List (String × Nat)) :
    ∀ init, ((init.map (fun e => e.1)).Nodup) →
      ((l.foldl bestStep init).map (fun e => e.1)).Nodup := by
  induction l with
  | nil => intro init h; exact h
  | cons np l ih => intro init h; exact ih _ (bestStep_keys init np h)

/-- The dedup dictionary holds each normalized key at most once. -/
theorem bestFold_keys_nodup (pairs : List (String × Nat)) :
    ((bestFold pairs).map (fun e => e.1)).Nodup :=
  foldl_bestStep_keys pairs [] (by simp)

/-- One groupby step never duplicates a name. -/
theorem groupStep_keys (acc : List (String × Nat)) (r : String × Nat)
    (h : (acc.map (fun e => e.1)).Nodup) :
    ((groupStep acc r).map (fun e => e.1)).Nodup := by
  simp only [groupStep]
  split
  · rw [List.map_map]
    have heq : acc.map ((fun e => e.1) ∘ (fun e =>
        if e.1 = r.1 then (e.1, max e.2 r.2) else e)) =
        acc.map (fun e => e.1) := by
      apply List.map_congr_left
      intro a _
      simp only [Function.comp]
      by_cases hk : a.1 = r.1
      · rw [if_pos hk]
      · rw [if_neg hk]
    rw [heq]; exact h
  · rename_i hany
    rw [List.map_append, List.nodup_append]
    refine ⟨h, List.nodup_singleton _, ?_⟩
    intro a ha hb
    simp only [List.map_cons, List.map_nil, List.mem_singleton] at hb
    subst hb
    rcases List.mem_map.mp ha with ⟨e, he, hek⟩
    exact absurd (List.any_eq_true.mpr ⟨e, he, by simp [hek]⟩) hany

theorem foldl_groupStep_keys (l : List (String × Nat)) :
    ∀ init, ((init.map (fun e => e.1)).Nodup) →
      ((l.foldl groupStep init).map (fun e => e.1)).Nodup := by
  induction l with
  | nil => intro init h; exact h
  | cons r l ih => intro init h; exact ih _ (groupStep_keys init r h)

/-- Sorting by power keeps the record multiset; sortedness of the
result. -/
theorem sortPowerDesc_sorted (l : List (String × Nat)) :
    List.Sorted powerDescRel (sortPowerDesc l) :=
  List.sorted_insertionSort powerDescRel l

theorem sortPowerDesc_chain (l : List (String × Nat)) :
    List.Chain' powerDescRel (sortPowerDesc l) :=
  List.chain'_iff_pairwise.mpr (sortPowerDesc_sorted l)

/-- Inversion of a successful `parse_ocr_lines` run. -/
theorem parse_ocr_lines_ok {lines : List (Option String)}
    {recs : List (String × Nat)} {susp : List Suspect}
    (h : parse_ocr_lines lines = Except.ok (recs, susp)) :
    recs = sortPowerDesc ((bestFold (parseLoop lines []).1).map (fun e => e.2)) ∧
    susp = (parseLoop lines []).2 := by
  simp only [parse_ocr_lines] at h
  split at h
  · exact Except.noConfusion h
  · rw [Except.ok.injEq, Prod.mk.injEq] at h
    exact ⟨h.1.symm, h.2.symm⟩

/-- The two reason-string families never coincide. -/
theorem floorReason_ne_malformedReason (f p q : Nat) :
    floorReason f p ≠ malformedReason q := by
  intro h
  have hd := congrArg String.data h
  simp only [floorReason, malformedReason, String.data_append] at hd
  simp at hd

/-! ## Claims -/

/-- C1: the claim says `parse_ocr_lines` runs to completion and returns a
`(records, suspects)` pair for every well-formed input, in particular for
inputs yielding zero valid pairs. The code violates this: with zero valid
pairs the dedup dictionary is empty, `pd.DataFrame([])` has no "Power"
column, and `sort_values("Power", ...)` raises `KeyError`. This theorem
evaluates the embedding at two such inputs — the empty input and the
spec's own Scenario B input (whose only output is a suspect): both end in
the modelled exception, and the Scenario B suspect produced by the loop is
lost to it. -/
theorem C1_zero_pair_input_raises :
    parse_ocr_lines [] = Except.error ("KeyError: Power") ∧
    parse_ocr_lines [some ("Elite"), some ("PlayerTwo"), some ("170"),
      some ("999999")] = Except.error ("KeyError: Power") ∧
    (parseLoop [some ("Elite"), some ("PlayerTwo"), some ("170"),
      some ("999999")] []).2
      = [("PlayerTwo", "999999", floorReason 3000000 999999)] :=
  ⟨rfl, rfl, by decide⟩

/-- C2, counterexample: the claim says the merged multi-image output keys
records by normalized name, so `("Foo", 5000000)` and `("foo", 7000000)`
from two images merge into a single record. In the code the multi-image
merge groups by the exact "Player Name" string: the two records survive
side by side and the normalized key "foo" appears twice. -/
theorem C2_counterexample :
    (parse_ocr_lines [some ("Foo"), some ("5000000")]
        = Except.ok ([("Foo", 5000000)], []) ∧
      parse_ocr_lines [some ("foo"), some ("7000000")]
        = Except.ok ([("foo", 7000000)], []) ∧
      mergeGroupMax [[("Foo", 5000000)], [("foo", 7000000)]]
        = [("foo", 7000000), ("Foo", 5000000)]) ∧
    ¬ ((mergeGroupMax [[("Foo", 5000000)], [("foo", 7000000)]]).map
        (fun r => normalize_name_key r.1)).Nodup :=
  ⟨⟨rfl, rfl, rfl⟩, by decide⟩

/-- C2, amended: within one image the dedup is keyed by normalized name,
but the merged multi-image output is keyed by the exact cleaned name
string, each exact name occurring at most once; the two images of the
scenario therefore merge to two records, "foo" with 7000000 first. -/
theorem C2_merge_keyed_by_exact_name :
    (∀ dfs : List (List (String × Nat)),
        ((mergeGroupMax dfs).map (fun r => r.1)).Nodup) ∧
    (∀ (lines : List (Option String)) (recs : List (String × Nat))
        (susp : List Suspect),
        parse_ocr_lines lines = Except.ok (recs, susp) →
        (recs.map (fun r => normalize_name_key r.1)).Nodup) ∧
    mergeGroupMax [[("Foo", 5000000)], [("foo", 7000000)]]
      = [("foo", 7000000), ("Foo", 5000000)] := by
  refine ⟨?_, ?_, rfl⟩
  · intro dfs
    simp only [mergeGroupMax, groupMaxByName, sortPowerDesc]
    have h0 := foldl_groupStep_keys dfs.flatten [] (by simp)
    have p1 := (List.perm_insertionSort nameLeRel
      (dfs.flatten.foldl groupStep [])).map (fun e => e.1)
    have p2 := (List.perm_insertionSort powerDescRel
      (List.insertionSort nameLeRel (dfs.flatten.foldl groupStep []))).map
      (fun e => e.1)
    exact ((p2.trans p1).symm).nodup h0
  · intro lines recs susp h
    obtain ⟨hr, -⟩ := parse_ocr_lines_ok h
    subst hr
    have hv : (((bestFold (parseLoop lines []).1).map (fun e => e.2)).map
        (fun r => normalize_name_key r.1))
        = (bestFold (parseLoop lines []).1).map (fun e => e.1) := by
      rw [List.map_map]
      apply List.map_congr_left
      intro e he
      simp only [Function.comp]
      exact ((bestFold_entries _ e he).2).symm
    have hnodup : ((((bestFold (parseLoop lines []).1).map (fun e => e.2)).map
        (fun r => normalize_name_key r.1))).Nodup := by
      rw [hv]; exact bestFold_keys_nodup _
    have hperm := (List.perm_insertionSort powerDescRel
      ((bestFold (parseLoop lines []).1).map (fun e => e.2))).map
      (fun r => normalize_name_key r.1)
    simp only [sortPowerDesc]
    exact hperm.symm.nodup hnodup

theorem C2_merge_keyed_by_exact_name_witness :
    (([(("PlayerOne" : String), (3500000 : Nat))]).map
      (fun r => normalize_name_key r.1)).Nodup :=
  C2_merge_keyed_by_exact_name.2.1
    [some ("PlayerOne"), some ("3,500,000")] _ _ rfl

/-- C3: at a power boundary with a non-empty cleaned name, a value below
the configured `STRICT_MIN_POWER` floor yields exactly one suspect with
the floor reason and no record, whatever the parser's `ok` flag; the
spec's Scenario B input produces exactly the suspect
`("PlayerTwo", "999999", "power<3000000 (999999)")` and no record. -/
theorem C3_floor_takes_precedence :
    (∀ (raw : String) (rest : List (Option String)) (cur : List String)
        (p : Nat),
        (parse_power (pyStrip raw)).1 = some p →
        clean_name (joinSpace cur) ≠ "" →
        p < 3000000 →
        parseLoop (some raw :: rest) cur =
          ((parseLoop rest []).1,
           (clean_name (joinSpace cur), pyStrip raw, floorReason 3000000 p)
             :: (parseLoop rest []).2)) ∧
    parseLoop [some ("Elite"), some ("PlayerTwo"), some ("170"),
      some ("999999")] []
      = ([], [("PlayerTwo", "999999", "power<3000000 (999999)")]) :=
  ⟨parseLoop_floor_step, by decide⟩

theorem C3_floor_takes_precedence_witness :
    (parse_power (pyStrip ("999999"))).1 = some 999999 ∧
    clean_name (joinSpace ["PlayerTwo", "170"]) ≠ "" ∧
    parseLoop [some ("999999")] ["PlayerTwo", "170"] =
      ((parseLoop ([] : List (Option String)) []).1,
       (clean_name (joinSpace ["PlayerTwo", "170"]), pyStrip ("999999"),
        floorReason 3000000 999999)
         :: (parseLoop ([] : List (Option String)) []).2) :=
  ⟨by decide, by decide,
   C3_floor_takes_precedence.1 ("999999") [] ["PlayerTwo", "170"] 999999
     (by decide) (by decide) (by decide)⟩

/-- C4: a line whose digit-only residue is shorter than `MIN_DIGITS` is
rejected by `parse_power` (`(none, false)`), so the aggregator never
treats it as a power boundary; it falls through to the empty-line skip,
the drop-line skip, or name-fragment accumulation. -/
theorem C4_short_digits_not_power (raw : String)
    (rest : List (Option String)) (cur : List String)
    (h : (digitsOf (pNormalize (pyStrip raw))).length < MIN_DIGITS) :
    parse_power raw = (none, false) ∧
    parseLoop (some raw :: rest) cur =
      (if pyStrip raw = "" then parseLoop rest cur
       else if is_drop_line (pyStrip raw) then parseLoop rest cur
       else parseLoop rest (cur ++ [pyStrip raw])) := by
  have h2 : (digitsOf (pNormalize (pyStrip (pyStrip raw)))).length
      < MIN_DIGITS := by rwa [pyStrip_idem]
  refine ⟨parse_power_short raw h, ?_⟩
  exact parseLoop_nopower_step raw rest cur
    (by rw [parse_power_short (pyStrip raw) h2])

theorem C4_short_digits_not_power_witness :
    (digitsOf (pNormalize (pyStrip ("12345")))).length < MIN_DIGITS ∧
    (parse_power ("12345") = (none, false) ∧
      parseLoop [some ("12345")] [] =
        (if pyStrip ("12345") = "" then parseLoop [] []
         else if is_drop_line (pyStrip ("12345")) then parseLoop [] []
         else parseLoop [] ([] ++ [pyStrip ("12345")]))) :=
  ⟨by decide, C4_short_digits_not_power ("12345") [] [] (by decide)⟩

/-- C5: a power boundary whose accumulated fragments clean to the empty
string is discarded silently — no record, no suspect, accumulator reset;
in particular fragments of pure short numeric noise (`"170"`) followed by
a valid power line produce nothing at all. -/
theorem C5_empty_name_silent_discard :
    (∀ (raw : String) (rest : List (Option String)) (cur : List String)
        (p : Nat),
        (parse_power (pyStrip raw)).1 = some p →
        clean_name (joinSpace cur) = "" →
        parseLoop (some raw :: rest) cur = parseLoop rest []) ∧
    parseLoop [some ("170"), some ("3500000")] [] = ([], []) :=
  ⟨parseLoop_emptyname_step, by decide⟩

theorem C5_empty_name_silent_discard_witness :
    (parse_power (pyStrip ("3500000"))).1 = some 3500000 ∧
    clean_name (joinSpace ["170"]) = "" ∧
    parseLoop [some ("3500000")] ["170"]
      = parseLoop ([] : List (Option String)) [] :=
  ⟨by decide, by decide,
   C5_empty_name_silent_discard.1 ("3500000") [] ["170"] 3500000
     (by decide) (by decide)⟩

/-- C6: name fragments still held in the accumulator when the input ends
contribute nothing — appending a suffix of non-power lines never changes
the output, and an input with no power line at all yields no records and
no suspects whatever is accumulated. -/
theorem C6_trailing_fragments_discarded :
    (∀ (lines suffix : List (Option String)),
        suffix.all noPowerB = true →
        parseLoop (lines ++ suffix) [] = parseLoop lines []) ∧
    (∀ (lines : List (Option String)),
        lines.all noPowerB = true →
        ∀ cur, parseLoop lines cur = ([], [])) :=
  ⟨fun lines suffix h => parseLoop_append_noPower suffix h lines [],
   parseLoop_noPower⟩

theorem C6_trailing_fragments_discarded_witness :
    ([some ("Trailing"), some ("Name")] : List (Option String)).all noPowerB
      = true ∧
    parseLoop ([some ("PlayerOne"), some ("3,500,000")]
        ++ [some ("Trailing"), some ("Name")]) []
      = parseLoop [some ("PlayerOne"), some ("3,500,000")] [] :=
  ⟨by decide,
   C6_trailing_fragments_discarded.1 [some ("PlayerOne"), some ("3,500,000")]
     [some ("Trailing"), some ("Name")] (by decide)⟩

/-- C7: `parse_power` never returns a value with `ok = false`; hence the
aggregator's `malformed_digits` branch is unreachable — every suspect
carries a floor reason and never a `malformed_digits` reason. -/
theorem C7_no_malformed_suspects :
    (∀ (s : String) (v : Nat), parse_power s ≠ (some v, false)) ∧
    (∀ (lines : List (Option String)) (cur : List String) (su : Suspect),
        su ∈ (parseLoop lines cur).2 →
        (∃ p, p < 3000000 ∧ su.2.2 = floorReason 3000000 p) ∧
        ∀ q : Nat, su.2.2 ≠ malformedReason q) := by
  refine ⟨parse_power_not_some_false, ?_⟩
  intro lines cur su hmem
  have h := parseLoop_suspects lines cur su hmem
  refine ⟨h, ?_⟩
  rcases h with ⟨p, -, hp⟩
  intro q hq
  rw [hp] at hq
  exact floorReason_ne_malformedReason 3000000 p q hq

theorem C7_no_malformed_suspects_witness :
    (∃ p, p < 3000000 ∧
      (("PlayerTwo", "999999", "power<3000000 (999999)") : Suspect).2.2
        = floorReason 3000000 p) ∧
    ∀ q : Nat,
      (("PlayerTwo", "999999", "power<3000000 (999999)") : Suspect).2.2
        ≠ malformedReason q :=
  C7_no_malformed_suspects.2
    [some ("Elite"), some ("PlayerTwo"), some ("170"), some ("999999")] []
    ("PlayerTwo", "999999", "power<3000000 (999999)") (by decide)

/-- C8: the merged record list, and every per-image record list returned
by a successful `parse_ocr_lines` run, is sorted by power descending
(each record's power is at least its successor's). -/
theorem C8_sorted_by_power_desc :
    (∀ dfs : List (List (String × Nat)),
        List.Chain' powerDescRel (mergeGroupMax dfs)) ∧
    (∀ (lines : List (Option String)) (recs : List (String × Nat))
        (susp : List Suspect),
        parse_ocr_lines lines = Except.ok (recs, susp) →
        List.Chain' powerDescRel recs) := by
  constructor
  · intro dfs
    exact sortPowerDesc_chain _
  · intro lines recs susp h
    obtain ⟨hr, -⟩ := parse_ocr_lines_ok h
    subst hr
    exact sortPowerDesc_chain _

theorem C8_sorted_by_power_desc_witness :
    List.Chain' powerDescRel [(("PlayerOne" : String), (3500000 : Nat))] :=
  C8_sorted_by_power_desc.2 [some ("PlayerOne"), some ("3,500,000")] _ _ rfl

/-- C9: the pipe character is normalized to the digit 1, so the line
`"|234567"` parses as the 7-digit power 1234567 with `ok = true`. -/
theorem C9_pipe_normalized_to_one :
    parse_power ("|234567") = (some 1234567, true) := by decide

/-- C10: every record of a successful `parse_ocr_lines` run has a
non-empty name that is an output of `clean_name`, and a power that is a
non-negative integer. -/
theorem C10_record_invariant (lines : List (Option String))
    (recs : List (String × Nat)) (susp : List Suspect)
    (h : parse_ocr_lines lines = Except.ok (recs, susp)) :
    ∀ rec ∈ recs,
      rec.1 ≠ "" ∧ (∃ raw, rec.1 = clean_name raw) ∧ 0 ≤ rec.2 := by
  intro rec hrec
  obtain ⟨hr, -⟩ := parse_ocr_lines_ok h
  subst hr
  simp only [sortPowerDesc, List.mem_insertionSort] at hrec
  rcases List.mem_map.mp hrec with ⟨e, he, hee⟩
  have hent := bestFold_entries _ e he
  have hinv := parseLoop_records lines [] e.2 hent.1
  subst hee
  exact ⟨hinv.1, hinv.2, Nat.zero_le _⟩

theorem C10_record_invariant_witness :
    (("PlayerOne", 3500000) : String × Nat).1 ≠ "" ∧
    (∃ raw, (("PlayerOne", 3500000) : String × Nat).1 = clean_name raw) ∧
    0 ≤ (("PlayerOne", 3500000) : String × Nat).2 :=
  C10_record_invariant [some ("PlayerOne"), some ("3,500,000")] _ _ rfl
    ("PlayerOne", 3500000) (by decide)
